import Mathlib

/-!
Shallow embedding of the deepmed / deepest_histology experiment engines:
the task model of deepmed/types.py, the dispatcher of deepmed/_experiment.py,
the legacy ordered engine of src/deepest_histology/_experiment.py, the legacy
sequential engine of src/deepest_histology/experiment.py, the training step of
src/deepest_histology/basic/train.py and the multi-target run-getter adapter
of src/deepest_histology/get/_multi_target.py, together with theorems checking
the specification against these definitions.
-/

namespace DeepMed

/-- A directory path, as the list of its segments relative to some root. -/
abbrev DirPath := List String

/-! ### Current task model: deepmed/types.py, Task.run (lines 42-47)

`Task.run` waits on every requirement event, performs the work, and only then
sets the `done` event.  There is no try/finally around `do_work`: an exception
in `do_work` propagates before `done.set()` is reached.  We model the work as
an `Except` value, the `done` event of the task as a `Bool`, and the blocking
wait on requirement events as an `Option`: `none` means `run` blocks forever
because some requirement event is never set. -/

/-- Result of `Task.run`: `none` when the task blocks forever on an unset
requirement, otherwise the propagated exception (if any) together with the
final state of the `done` event. -/
def taskRun (reqs : List Bool) (work : Except E Unit) (doneEvt : Bool) :
    Option (Option E × Bool) :=
  if reqs.all id then
    match work with
    | Except.ok _ => some (none, true)
    | Except.error e => some (some e, doneEvt)
  else none

/-- deepmed/_experiment.py `_do_run_wrapper` (lines 78-92): the work is run
inside a `try` block and `run.done.set()` is in the `finally` block, so the
`done` event is set on every exit path of the wrapper. -/
def doRunWrapper (work : Except E Unit) (_doneEvt : Bool) : Option E × Bool :=
  match work with
  | Except.ok _ => (none, true)
  | Except.error e => (some e, true)

/-! ### Legacy training step: src/deepest_histology/basic/train.py -/

/-- The arguments of a `fit_one_cycle` call: number of epochs, the low and
high ends of the discriminative learning-rate slice, the warm-up fraction
`pct_start` and the divide factor `div`. -/
structure FitCall where
  epochs : Nat
  sliceLo : ℚ
  sliceHi : ℚ
  pctStart : ℚ
  div : ℚ
  deriving DecidableEq

/-- Which fit is performed by `train` (train.py lines 66-69). -/
inductive FitAction where
  | oneCycle : FitCall → FitAction
  | fineTune : Nat → ℚ → FitAction
  deriving DecidableEq

/-- train.py `fit_from_checkpoint` (line 95): after reloading the checkpoint
it calls `learn.fit_one_cycle(max_epochs, slice(lr/100, lr), pct_start=.3,
div=5.)` with its own `lr` parameter. -/
def fit_from_checkpoint (lr : ℚ) (maxEpochs : Nat) : FitCall :=
  ⟨maxEpochs, lr / 100, lr, 3 / 10, 5⟩

/-- train.py lines 66-69: when a checkpoint exists, `train` calls
`fit_from_checkpoint(learn, lr/2, max_epochs, ...)` — note the halved
learning rate — otherwise `learn.fine_tune(epochs=max_epochs, base_lr=lr)`. -/
def trainFitStep (lr : ℚ) (maxEpochs : Nat) (checkpointExists : Bool) :
    FitAction :=
  if checkpointExists then
    FitAction.oneCycle (fit_from_checkpoint (lr / 2) maxEpochs)
  else
    FitAction.fineTune maxEpochs lr

/-! ### Legacy ordered engine, per-run device search:
src/deepest_histology/_experiment.py `_do_run` (lines 193-210)

One pass over the `zip(devices, capacities)` pairs with a non-blocking
acquire.  We record for each pair whether its non-blocking acquire succeeds;
the for-else raises `RuntimeError('Could not find a free GPU!')` when the
whole pass acquires nothing. -/

/-- One pass of the legacy `_do_run` device search. -/
def doRunDeviceSearch : List (String × Bool) → Except String String
  | [] => Except.error "Could not find a free GPU!"
  | (d, acq) :: rest => if acq then Except.ok d else doRunDeviceSearch rest

/-- src/deepest_histology/_experiment.py `_do_run_wrapper` (lines 213-228):
the spawned worker process with exit code 0 returns the run, a nonzero exit
code returns `None`. -/
def doRunWrapperLegacy (exitcode : Nat) (run : ρ) : Option ρ :=
  if exitcode = 0 then some run else none

/-- do_experiment line 76: `runs = (run for run in runs if run is not None)`,
the completion stream fed to evaluation, with the failed (`None`) runs
filtered out. -/
def completedRuns (results : List (Nat × ρ)) : List ρ :=
  results.filterMap (fun x => doRunWrapperLegacy x.1 x.2)

/-- deepmed/types.py `GPUTask.do_work` (lines 125-137): the device search
iterates over `cycle(self.capacities.items())`, so attempt `i` targets device
`i % devices.length`; `acq i` tells whether the non-blocking acquire of
attempt `i` succeeds.  The loop body has no failure branch for exhaustion:
the function is indexed by fuel and returns `none` while still searching. -/
def gpuTaskSearch (devices : List String) (acq : Nat → Bool) :
    Nat → Nat → Option String
  | _, 0 => none
  | i, fuel + 1 =>
    if acq i then some (devices.getD (i % devices.length) "")
    else gpuTaskSearch devices acq (i + 1) fuel

/-! ### Legacy sequential engine, deployment step:
src/deepest_histology/experiment.py `deploy_` (lines 158-177) -/

/-- A filesystem as an association list from paths to file contents. -/
def fsLookup (fs : List (DirPath × String)) (p : DirPath) : Option String :=
  (fs.find? (fun e => e.1 == p)).map (·.2)

/-- Outcome of one `deploy_` invocation: the filesystem afterwards, the
returned predictions, whether the deployer strategy was invoked, and whether
the already-exists warning was logged. -/
structure DeployOutcome where
  fs : List (DirPath × String)
  preds : String
  deployerInvoked : Bool
  warned : Bool
  deriving DecidableEq

/-- `deploy_`: if `predictions.csv.zip` exists in the run directory it is
loaded and returned with a warning; otherwise the model is loaded if absent,
the deployer is called and its result is written to the file. -/
def deploy_ (fs : List (DirPath × String)) (deployFn : String → String)
    (model : Option String) (modelLoad : Option String → String)
    (runDir : DirPath) : DeployOutcome :=
  let predsPath := runDir ++ ["predictions.csv.zip"]
  match fsLookup fs predsPath with
  | some contents => ⟨fs, contents, false, true⟩
  | none =>
    let m := match model with
      | some m => m
      | none => modelLoad model
    let preds := deployFn m
    ⟨(predsPath, preds) :: fs, preds, true, false⟩

/-! ### Legacy training step, class weights:
src/deepest_histology/basic/train.py lines 42-57 -/

/-- One row of a training table: its validation flag and the value of the
target-label column. -/
structure TileRow where
  is_valid : Bool
  label : String

/-- train.py line 47: `counts = train_df[~train_df.is_valid].iloc[:,
target_col_idx].value_counts()` — the count of class `c` among the
non-validation rows. -/
def trainingCount (rows : List TileRow) (c : String) : Nat :=
  ((rows.filter (fun r => !r.is_valid)).filter (fun r => r.label == c)).length

/-- train.py lines 49-50: `counts = torch.tensor([counts[k] for k in
dls.vocab]); weights = 1 - (counts / sum(counts))`. -/
def classWeights (rows : List TileRow) (vocab : List String) : List ℚ :=
  let counts := vocab.map (fun k => (trainingCount rows k : ℚ))
  let total := counts.sum
  counts.map (fun c => 1 - c / total)

/-! ### Legacy ordered engine, hierarchical evaluator cascade:
src/deepest_histology/_experiment.py `_evaluate_runs` (lines 81-129) and
`_run_evaluators` (lines 132-139) -/

/-- One evaluator group, as the list of the names of its evaluators. -/
abbrev EvalGroup := List String

/-- `[*reversed(run_dir_rel.parents), run_dir_rel]`: the ancestors of a
relative directory from the root (the empty path) down to the directory
itself. -/
def ancestorPaths (p : DirPath) : List DirPath :=
  (List.range (p.length + 1)).map (fun i => p.take i)

/-- `next(i for i, (old, new) in enumerate(zip(old_parts, new_parts)) if old
!= new)`: the first index at which the two paths differ, `none` when the
generator is exhausted (which makes the bare `next` raise StopIteration). -/
def firstDiffLevel : DirPath → DirPath → Option Nat
  | a :: as, b :: bs =>
    if a = b then (firstDiffLevel as bs).map (· + 1) else some 0
  | _, _ => none

/-- `_run_evaluators`: walks `reversed(paths_and_evaluator_groups)` (deepest
first), skipping empty evaluator groups; returns the flushes performed, in
order. -/
def runEvaluators (pgs : List (DirPath × EvalGroup)) :
    List (DirPath × EvalGroup) :=
  pgs.reverse.filter (fun x => !x.2.isEmpty)

/-- The loop of `_evaluate_runs` with `last` holding the previous run's
relative directory: on each new run it finds the first differing path level
and flushes the evaluator groups of the deeper ancestors of `last`; after the
last run it flushes every level.  `none` models the uncaught StopIteration of
the bare `next(...)` when two consecutive paths never differ. -/
def evalLoop (groups : List EvalGroup) :
    DirPath → List DirPath → Option (List (DirPath × EvalGroup))
  | last, [] => some (runEvaluators ((ancestorPaths last).zip groups))
  | last, r :: rs =>
    match firstDiffLevel last r with
    | none => none
    | some i =>
      (evalLoop groups r rs).map
        (fun rest =>
          runEvaluators (((ancestorPaths last).zip groups).drop (i + 1)) ++ rest)

/-- `_evaluate_runs`: the ordered sequence of evaluator flushes, each a pair
of the target directory (relative to the project directory) and the evaluator
group that is run on it, or `none` when the divergence search aborts. -/
def evaluateRuns (groups : List EvalGroup) :
    List DirPath → Option (List (DirPath × EvalGroup))
  | [] => some []
  | r :: rs => evalLoop groups r rs

/-! ### Column-level alignment:
`_raise_df_column_level` (deepmed/types.py lines 165-175 and
src/deepest_histology/_experiment.py lines 159-169, identical) -/

/-- A dataframe column index: either a flat index of plain labels or a
multi-index of nesting depth `n` whose labels are `n`-tuples with `none` as
absent-value placeholder. -/
inductive Cols where
  | flat : List String → Cols
  | multi : Nat → List (List (Option String)) → Cols
  deriving DecidableEq

/-- `df.columns.nlevels`: a flat index has one level. -/
def Cols.nlevels : Cols → Nat
  | .flat _ => 1
  | .multi n _ => n

/-- `df.columns.empty`: whether the index has no columns. -/
def Cols.isEmptyCols : Cols → Bool
  | .flat ls => ls.isEmpty
  | .multi _ ls => ls.isEmpty

/-- A result table: column index, row index and row-major cell values. -/
structure DF where
  cols : Cols
  index : List String
  values : List (List Int)
  deriving DecidableEq

/-- `_raise_df_column_level(df, level)`: an empty column index becomes
`MultiIndex.from_product([[]] * level)`; a multi-index pads each label tuple
with `(None,) * (level - nlevels)`; a flat index wraps each label into a
tuple padded the same way.  Values and row index are passed through
unchanged. -/
def _raise_df_column_level (df : DF) (level : Nat) : DF :=
  let columns :=
    if df.cols.isEmptyCols then Cols.multi level []
    else
      match df.cols with
      | Cols.multi n labs =>
        Cols.multi (n + (level - n))
          (labs.map (fun col => col ++ List.replicate (level - n) none))
      | Cols.flat labs =>
        Cols.multi (1 + (level - 1))
          (labs.map (fun col => some col :: List.replicate (level - 1) none))
  { cols := columns, index := df.index, values := df.values }

/-- Column labels as tuples, flat labels becoming one-element tuples. -/
def Cols.toTuples : Cols → List (List (Option String))
  | .flat ls => ls.map (fun c => [some c])
  | .multi _ ls => ls

/-- Concatenation of two column indexes at the level of the first. -/
def colsAppend (a b : Cols) : Cols :=
  Cols.multi a.nlevels (a.toTuples ++ b.toTuples)

/-- External model of `stats_df.join(df)` on the shared row index: succeeds
exactly when the column nesting depths agree and the row indexes coincide,
concatenating the columns of each row; `none` models the join raising on a
depth mismatch. -/
def joinDF (a b : DF) : Option DF :=
  if a.cols.nlevels = b.cols.nlevels ∧ a.index = b.index ∧
      a.values.length = b.values.length then
    some ⟨colsAppend a.cols b.cols, a.index,
      List.zipWith (fun x y => x ++ y) a.values b.values⟩
  else none

/-- The accumulation step shared by `EvalTask.do_work` (deepmed/types.py
lines 156-160) and `_run_evaluators` (lines 150-154): raise both tables to
the maximum of their column nesting depths, then join. -/
def combineStats (stats df : DF) : Option DF :=
  let levels := max stats.cols.nlevels df.cols.nlevels
  joinDF (_raise_df_column_level stats levels) (_raise_df_column_level df levels)

/-! ### Device capacity pool (claim C6)

The per-device counting permit is a `multiprocessing` semaphore created with
capacity N.  Each work unit (`GPUTask.do_work` lines 125-137, `_do_run`
lines 200-208) acquires it non-blockingly and releases it in a `finally`
block, on success, exception and break alike.  We model a pool of tasks
sharing one device: each task is in one of three phases, and a scheduler
step advances one task. -/

/-- Phase of one work unit with respect to one device permit. -/
inductive Phase where
  | searching
  | holding
  | finished
  deriving DecidableEq

/-- Pool state: the configured capacity, the current value of the semaphore,
and the phase of each task. -/
structure PoolState where
  cap : Nat
  avail : Nat
  tasks : List Phase
  deriving DecidableEq

/-- One scheduler step of task `i`: a searching task performs the
non-blocking acquire (moving to `holding` only when the semaphore is
positive, otherwise retrying later); a holding task finishes its work —
successfully or not — and its `finally` block releases the permit. -/
def stepTask (s : PoolState) (i : Nat) : PoolState :=
  match s.tasks[i]? with
  | some Phase.searching =>
    if 0 < s.avail then ⟨s.cap, s.avail - 1, s.tasks.set i Phase.holding⟩
    else s
  | some Phase.holding => ⟨s.cap, s.avail + 1, s.tasks.set i Phase.finished⟩
  | _ => s

/-- Run a whole schedule of task steps. -/
def runSched (s : PoolState) (sched : List Nat) : PoolState :=
  sched.foldl stepTask s

/-- The number of tasks concurrently holding the device permit. -/
def activeCount (s : PoolState) : Nat :=
  s.tasks.countP (fun p => p == Phase.holding)

/-- Initial pool: a fresh semaphore at capacity `cap` and `n` tasks that
have not yet acquired. -/
def initPool (cap n : Nat) : PoolState :=
  ⟨cap, cap, List.replicate n Phase.searching⟩

/-- The effect of one work unit on the semaphore value, after a successful
non-blocking acquire: the body may succeed or raise, and the `finally`
block releases either way. -/
def doWorkSem (avail : Nat) (body : Except E Unit) : Option E × Nat :=
  if 0 < avail then
    match body with
    | Except.ok _ => (none, avail - 1 + 1)
    | Except.error e => (some e, avail - 1 + 1)
  else (none, avail)

/-! ### Multi-target run-getter adapter:
src/deepest_histology/get/_multi_target.py `multi_target` (lines 16-40) -/

/-- An observable event of the adapter: a directory creation, an invocation
of the inner getter with a bound label and output root, or a yielded run. -/
inductive MTEvent (ρ : Type) where
  | mkdirEvt : DirPath → MTEvent ρ
  | invokeEvt : String → DirPath → MTEvent ρ
  | yieldEvt : ρ → MTEvent ρ
  deriving DecidableEq

/-- `multi_target`: for each target label in order, create the subdirectory
`project_dir/label`, then invoke the inner getter on that subdirectory with
the label bound and the remaining arguments `extra` forwarded unchanged,
yielding every run it produces. -/
def multi_target (get : String → DirPath → α → List ρ) (project_dir : DirPath)
    (target_labels : List String) (extra : α) : List (MTEvent ρ) :=
  target_labels.flatMap (fun l =>
    MTEvent.mkdirEvt (project_dir ++ [l]) ::
    MTEvent.invokeEvt l (project_dir ++ [l]) ::
    (get l (project_dir ++ [l]) extra).map MTEvent.yieldEvt)

/-- The runs yielded along a trace, in order. -/
def yieldedRuns (tr : List (MTEvent ρ)) : List ρ :=
  tr.filterMap (fun e => match e with
    | MTEvent.yieldEvt r => some r
    | _ => none)

end DeepMed

namespace DeepMed

/-- C1, counterexample: for a task whose work raises, `Task.run` itself does
not set the `done` event: with no requirements and failing work, the final
`done` state is `false`, not `true`. -/
theorem c1_counterexample :
    taskRun [] (Except.error ()) false = some (some (), false) ∧
    (taskRun [] (Except.error ()) false).map Prod.snd ≠ some true := by
  constructor
  · rfl
  · decide

/-- C1, amended: the completion signal is guaranteed on every exit path of
the engine wrapper `_do_run_wrapper`, whose finally block sets `done` even
when the work raises; `Task.run` itself sets `done` only after `do_work`
returns normally, and a task whose requirement event is never set blocks
forever in `run`. -/
theorem c1_done_signal :
    ∀ (work : Except Unit Unit) (d : Bool),
      (doRunWrapper work d).2 = true ∧
      taskRun [] (Except.ok () : Except Unit Unit) d = some (none, true) ∧
      (∀ e : Unit, taskRun [] (Except.error e) d = some (some e, d)) ∧
      taskRun [false] work d = none := by
  intro work d
  refine ⟨?_, rfl, fun e => rfl, rfl⟩
  cases work <;> rfl

/-- C5, counterexample: with configured base learning rate `lr = 1/500` and a
checkpoint present, the resumed fit is not the one-cycle call with slice
`(lr/100, lr)`: `train` passes `lr/2` down to `fit_from_checkpoint`. -/
theorem c5_counterexample :
    trainFitStep (1 / 500) 10 true ≠
      FitAction.oneCycle ⟨10, (1 / 500) / 100, 1 / 500, 3 / 10, 5⟩ := by
  simp only [trainFitStep, fit_from_checkpoint, if_true, ne_eq,
    FitAction.oneCycle.injEq, FitCall.mk.injEq]
  norm_num

/-- C5, amended: when a checkpoint exists, the resumed fit is a one-cycle
schedule over the configured number of epochs with learning-rate slice from
`lr/200` to `lr/2` (the training step halves the configured `lr` before
delegating to `fit_from_checkpoint`), warm-up fraction 3/10 and divide
factor 5. -/
theorem c5_resume_schedule :
    ∀ (lr : ℚ) (maxEpochs : Nat),
      trainFitStep lr maxEpochs true =
        FitAction.oneCycle ⟨maxEpochs, lr / 200, lr / 2, 3 / 10, 5⟩ := by
  intro lr maxEpochs
  simp only [trainFitStep, fit_from_checkpoint, if_true]
  congr 1
  ring_nf

/-- C2, counterexample: with four evaluator groups A, B, C, D indexed by
directory depth and the seven runs of the worked example, the flush sequence
is not the one the specification lists — the two-segment leaves are flushed
with group C (their depth index is 2), not with group D, and the arrival of
e/g/i does flush D(e/g/h). -/
theorem c2_counterexample :
    evaluateRuns [["A"], ["B"], ["C"], ["D"]]
        [["a", "b"], ["a", "c"], ["a", "d"], ["e", "f"],
         ["e", "g", "h"], ["e", "g", "i"], ["e", "j"]] ≠
      some [(["a", "b"], ["D"]), (["a", "c"], ["D"]), (["a", "d"], ["D"]),
        (["a"], ["C"]), (["e", "f"], ["D"]), (["e", "g", "i"], ["D"]),
        (["e", "g"], ["C"]), (["e", "j"], ["D"]), (["e"], ["B"]),
        ([], ["A"])] := by
  decide

/-- C2, amended: evaluator groups are zipped against the ancestor chain
starting at the root, so each directory is flushed with the group of its own
absolute depth.  For groups A, B, C, D and the seven runs of the worked
example the flush sequence is exactly: C(a/b); C(a/c); C(a/d) then B(a);
C(e/f); D(e/g/h) on the arrival of e/g/i; D(e/g/i) then C(e/g) on the
arrival of e/j; and at end of stream C(e/j), B(e), A(root).  Deepest level
first within each flush. -/
theorem c2_cascade_sequence :
    evaluateRuns [["A"], ["B"], ["C"], ["D"]]
        [["a", "b"], ["a", "c"], ["a", "d"], ["e", "f"],
         ["e", "g", "h"], ["e", "g", "i"], ["e", "j"]] =
      some [(["a", "b"], ["C"]), (["a", "c"], ["C"]), (["a", "d"], ["C"]),
        (["a"], ["B"]), (["e", "f"], ["C"]), (["e", "g", "h"], ["D"]),
        (["e", "g", "i"], ["D"]), (["e", "g"], ["C"]), (["e", "j"], ["C"]),
        (["e"], ["B"]), ([], ["A"])] := by
  decide

/-- C3: the legacy per-run worker makes one pass over the (device, permit)
pairs and fails with the fatal no-free-device error when every non-blocking
acquire fails; the dispatcher keeps exactly the runs whose worker exited
with code 0, excluding failed runs from the evaluation stream; the current
engine's `GPUTask.do_work` search never produces such an error: while no
acquire succeeds it keeps cycling (returning `none` at every fuel bound),
and it acquires the device of the first successful attempt. -/
theorem c3_no_free_device :
    (∀ pairs : List (String × Bool), (∀ p ∈ pairs, p.2 = false) →
      doRunDeviceSearch pairs = Except.error "Could not find a free GPU!") ∧
    (∀ results : List (Nat × String),
      completedRuns results = (results.filter (fun x => x.1 == 0)).map Prod.snd) ∧
    (∀ (devices : List String) (acq : Nat → Bool) (i fuel : Nat),
      (∀ j, acq j = false) → gpuTaskSearch devices acq i fuel = none) ∧
    (∀ (devices : List String) (acq : Nat → Bool) (i j fuel : Nat),
      (∀ k, k < j → acq (i + k) = false) → acq (i + j) = true → j < fuel →
      gpuTaskSearch devices acq i fuel =
        some (devices.getD ((i + j) % devices.length) "")) := by
  refine ⟨?_, ?_, ?_, ?_⟩
  · intro pairs h
    induction pairs with
    | nil => rfl
    | cons p rest ih =>
      obtain ⟨d, acq⟩ := p
      have hd : acq = false := h (d, acq) (by simp)
      subst hd
      simpa [doRunDeviceSearch] using ih (fun q hq => h q (by simp [hq]))
  · intro results
    induction results with
    | nil => rfl
    | cons x rest ih =>
      obtain ⟨e, r⟩ := x
      by_cases he : e = 0 <;>
        simp [completedRuns, doRunWrapperLegacy, he, List.filterMap_cons] at ih ⊢ <;>
        simpa [completedRuns] using ih
  · intro devices acq i fuel h
    induction fuel generalizing i with
    | zero => rfl
    | succ n ih => simp [gpuTaskSearch, h i, ih]
  · intro devices acq i j fuel hfail hsucc hlt
    induction j generalizing i fuel with
    | zero =>
      cases fuel with
      | zero => omega
      | succ n =>
        have h0 : acq i = true := by simpa using hsucc
        simp [gpuTaskSearch, h0]
    | succ m ih =>
      cases fuel with
      | zero => omega
      | succ n =>
        have h0 : acq i = false := by simpa using hfail 0 (by omega)
        have hstep :
            gpuTaskSearch devices acq (i + 1) n =
              some (devices.getD ((i + 1 + m) % devices.length) "") := by
          refine ih (i + 1) n (fun k hk => ?_) ?_ (by omega)
          · have := hfail (k + 1) (by omega)
            simpa [Nat.add_assoc, Nat.add_comm 1 k] using this
          · simpa [Nat.add_assoc, Nat.add_comm 1 m] using hsucc
        have harr : i + 1 + m = i + (m + 1) := by omega
        rw [harr] at hstep
        simp [gpuTaskSearch, h0, hstep]

/-- C3, witness: concrete instances of each conjunct — a two-device pass
with no free permit fails fatally; a worker with exit code 1 is dropped from
the completion stream while exit code 0 is kept; an always-failing acquire
never terminates the current search loop; an acquire succeeding on attempt 3
of a two-device cycle yields the second device. -/
theorem c3_no_free_device_witness :
    doRunDeviceSearch [("cuda:0", false), ("cuda:1", false)] =
      Except.error "Could not find a free GPU!" ∧
    completedRuns [(1, "r1"), (0, "r2")] = ["r2"] ∧
    gpuTaskSearch ["cuda:0"] (fun _ => false) 0 5 = none ∧
    gpuTaskSearch ["cuda:0", "cuda:1"] (fun n => n == 3) 0 9 = some "cuda:1" := by
  refine ⟨c3_no_free_device.1 _ (by decide), ?_, ?_, ?_⟩
  · exact (c3_no_free_device.2.1 [(1, "r1"), (0, "r2")]).trans (by rfl)
  · exact c3_no_free_device.2.2.1 ["cuda:0"] (fun _ => false) 0 5 (fun j => rfl)
  · exact (c3_no_free_device.2.2.2 ["cuda:0", "cuda:1"] (fun n => n == 3) 0 3 9
      (by decide) (by decide) (by decide)).trans (by rfl)

/-- C8: when `predictions.csv.zip` already exists in the run directory,
`deploy_` returns its contents with a warning, does not invoke the deployer
strategy, and leaves the filesystem — in particular the bytes of that file —
unchanged. -/
theorem c8_deploy_skip :
    ∀ (fs : List (DirPath × String)) (deployFn : String → String)
      (model : Option String) (modelLoad : Option String → String)
      (runDir : DirPath) (c : String),
      fsLookup fs (runDir ++ ["predictions.csv.zip"]) = some c →
      deploy_ fs deployFn model modelLoad runDir =
        ⟨fs, c, false, true⟩ := by
  intro fs deployFn model modelLoad runDir c h
  simp only [deploy_, h]

/-- C8, witness: a concrete filesystem already holding predictions for the
run directory, on which `deploy_` skips the deployer and keeps the old
bytes. -/
theorem c8_deploy_skip_witness :
    deploy_ [(["run1", "predictions.csv.zip"], "OLD")] (fun _ => "NEW")
        none (fun _ => "M") ["run1"] =
      ⟨[(["run1", "predictions.csv.zip"], "OLD")], "OLD", false, true⟩ := by
  exact c8_deploy_skip _ _ _ _ _ _ (by rfl)

/-- C9: each per-class loss weight is `1 - count_c / total`, where `count_c`
counts class `c` among the non-validation rows only, taken in the order of
the label vocabulary and with `total` the sum of those counts; training-set
counts A: 80, B: 20 (with 6 further validation rows that are ignored) yield
the weights A: 1/5, B: 4/5. -/
theorem c9_class_weights :
    (∀ (rows : List TileRow) (vocab : List String),
      classWeights rows vocab =
        vocab.map (fun k =>
          1 - (rows.countP (fun r => r.label == k && !r.is_valid) : ℚ) /
            ((vocab.map
              (fun j => (rows.countP (fun r => r.label == j && !r.is_valid) : ℚ))).sum))) ∧
    classWeights
        (List.replicate 80 ⟨false, "A"⟩ ++ List.replicate 20 ⟨false, "B"⟩ ++
          List.replicate 6 ⟨true, "A"⟩) ["A", "B"] =
      [1 / 5, 4 / 5] := by
  have hcount : ∀ (rows : List TileRow) (k : String),
      trainingCount rows k = rows.countP (fun r => r.label == k && !r.is_valid) := by
    intro rows k
    rw [trainingCount, ← List.countP_eq_length_filter, List.countP_filter]
  constructor
  · intro rows vocab
    simp only [classWeights, hcount, List.map_map, Function.comp_def]
  · have hA : trainingCount
        (List.replicate 80 ⟨false, "A"⟩ ++ List.replicate 20 ⟨false, "B"⟩ ++
          List.replicate 6 ⟨true, "A"⟩) "A" = 80 := by decide
    have hB : trainingCount
        (List.replicate 80 ⟨false, "A"⟩ ++ List.replicate 20 ⟨false, "B"⟩ ++
          List.replicate 6 ⟨true, "A"⟩) "B" = 20 := by decide
    simp only [classWeights, List.map_cons, List.map_nil, hA, hB, List.sum_cons,
      List.sum_nil]
    norm_num

/-- Mapping a function over an optional value does not change whether it is
present. -/
theorem isSome_omap (o : Option α) (f : α → β) : (o.map f).isSome = o.isSome := by
  cases o <;> rfl

/-- The inner loop of `_evaluate_runs` survives a run stream exactly when
every adjacent pair of directories (starting from the tracked previous one)
has a differing path level. -/
theorem evalLoop_isSome_iff (groups : List EvalGroup) :
    ∀ (rs : List DirPath) (last : DirPath),
      (evalLoop groups last rs).isSome = true ↔
        List.Chain' (fun a b => (firstDiffLevel a b).isSome = true) (last :: rs) := by
  intro rs
  induction rs with
  | nil => intro last; simp [evalLoop]
  | cons r rs ih =>
    intro last
    simp only [evalLoop, List.chain'_cons]
    cases h : firstDiffLevel last r with
    | none => simp [h]
    | some i => simp [h, isSome_omap, ih r]

/-- C10: `_evaluate_runs` terminates normally exactly when every pair of
consecutive run directories diverges at some shared segment index; the
divergence search returns nothing precisely when the zipped segments never
differ, in particular for identical directories and for segment-wise
extensions, on which evaluation aborts with the uncaught StopIteration
(modelled as `none`). -/
theorem c10_divergence_precondition :
    (∀ (groups : List EvalGroup) (runs : List DirPath),
      (evaluateRuns groups runs).isSome = true ↔
        List.Chain' (fun a b => (firstDiffLevel a b).isSome = true) runs) ∧
    (∀ a b : DirPath, firstDiffLevel a b = none ↔ ∀ p ∈ a.zip b, p.1 = p.2) ∧
    (∀ a : DirPath, firstDiffLevel a a = none) ∧
    (∀ a b : DirPath, firstDiffLevel a (a ++ b) = none) ∧
    evaluateRuns [["A"]] [["a"], ["a"]] = none ∧
    evaluateRuns [["A"], ["B"]] [["a"], ["a", "b"]] = none := by
  refine ⟨?_, ?_, ?_, ?_, by decide, by decide⟩
  · intro groups runs
    cases runs with
    | nil => simp [evaluateRuns]
    | cons r rs => simpa [evaluateRuns] using evalLoop_isSome_iff groups rs r
  · intro a
    induction a with
    | nil => intro b; simp [firstDiffLevel]
    | cons x xs ih =>
      intro b
      cases b with
      | nil => simp [firstDiffLevel]
      | cons y ys =>
        by_cases hxy : x = y
        · subst hxy
          simp [firstDiffLevel, Option.map_eq_none', ih ys, List.zip_cons_cons]
        · simp [firstDiffLevel, hxy, List.zip_cons_cons]
  · intro a
    induction a with
    | nil => rfl
    | cons x xs ih => simp [firstDiffLevel, ih]
  · intro a b
    induction a with
    | nil => cases b <;> rfl
    | cons x xs ih => simp [firstDiffLevel, ih]

/-- `_raise_df_column_level` passes the cell values through unchanged. -/
theorem raise_values (df : DF) (level : Nat) :
    (_raise_df_column_level df level).values = df.values := rfl

/-- `_raise_df_column_level` passes the row index through unchanged. -/
theorem raise_index (df : DF) (level : Nat) :
    (_raise_df_column_level df level).index = df.index := rfl

/-- Raising a column index to at least its own depth yields exactly the
requested depth. -/
theorem raise_nlevels (df : DF) (level : Nat) (h : df.cols.nlevels ≤ level) :
    (_raise_df_column_level df level).cols.nlevels = level := by
  obtain ⟨cols, idx, vals⟩ := df
  cases cols with
  | flat ls =>
    simp only [Cols.nlevels] at h
    by_cases hls : ls.isEmpty
    · simp [_raise_df_column_level, Cols.isEmptyCols, hls, Cols.nlevels]
    · simp [_raise_df_column_level, Cols.isEmptyCols, hls, Cols.nlevels]
      omega
  | multi n labs =>
    simp only [Cols.nlevels] at h
    by_cases hls : labs.isEmpty
    · simp [_raise_df_column_level, Cols.isEmptyCols, hls, Cols.nlevels]
    · simp [_raise_df_column_level, Cols.isEmptyCols, hls, Cols.nlevels]
      omega

/-- Raising a table with no columns produces an empty multi-index of exactly
the requested depth. -/
theorem raise_empty (df : DF) (level : Nat) (h : df.cols.isEmptyCols = true) :
    (_raise_df_column_level df level).cols = Cols.multi level [] := by
  simp [_raise_df_column_level, h]

/-- C4: raising a table to any depth at least its own changes neither cell
values nor row index and yields a column index of exactly that depth; a
table with no columns becomes an empty multi-index of the target depth;
joining the one-level columns [x, y] against the two-level columns [(p, q)]
succeeds with columns [(x, None), (y, None), (p, q)]; and joining any table
against an empty-column table with the same rows never fails with a depth
mismatch. -/
theorem c4_column_alignment :
    (∀ (df : DF) (level : Nat), df.cols.nlevels ≤ level →
      (_raise_df_column_level df level).values = df.values ∧
      (_raise_df_column_level df level).index = df.index ∧
      (_raise_df_column_level df level).cols.nlevels = level) ∧
    (∀ (df : DF) (level : Nat), df.cols.isEmptyCols = true →
      (_raise_df_column_level df level).cols = Cols.multi level []) ∧
    (combineStats ⟨Cols.flat ["x", "y"], ["r1"], [[1, 2]]⟩
        ⟨Cols.multi 2 [[some "p", some "q"]], ["r1"], [[3]]⟩ =
      some ⟨Cols.multi 2 [[some "x", none], [some "y", none],
        [some "p", some "q"]], ["r1"], [[1, 2, 3]]⟩) ∧
    (∀ (a : DF) (bcols : Cols) (bvals : List (List Int)),
      bcols.isEmptyCols = true → bvals.length = a.values.length →
      (combineStats a ⟨bcols, a.index, bvals⟩).isSome = true) := by
  refine ⟨fun df level h => ⟨raise_values df level, raise_index df level,
    raise_nlevels df level h⟩, raise_empty, by decide, ?_⟩
  intro a bcols bvals hempty hlen
  simp only [combineStats, joinDF]
  rw [if_pos]
  · rfl
  refine ⟨?_, ?_, ?_⟩
  · rw [raise_nlevels _ _ (le_max_left _ _), raise_empty ⟨bcols, a.index, bvals⟩ _ hempty]
    rfl
  · rw [raise_index, raise_index]
  · rw [raise_values, raise_values]
    exact hlen.symm

/-- C4, witness: applying the universally quantified conjuncts of the
alignment theorem at concrete tables. -/
theorem c4_column_alignment_witness :
    ((_raise_df_column_level ⟨Cols.flat ["x", "y"], ["r1"], [[1, 2]]⟩ 3).values =
        [[1, 2]] ∧
      (_raise_df_column_level ⟨Cols.flat ["x", "y"], ["r1"], [[1, 2]]⟩ 3).index =
        ["r1"] ∧
      (_raise_df_column_level ⟨Cols.flat ["x", "y"], ["r1"], [[1, 2]]⟩ 3).cols.nlevels =
        3) ∧
    (combineStats ⟨Cols.flat ["x", "y"], ["r1"], [[1, 2]]⟩
      ⟨Cols.multi 2 [], ["r1"], [[]]⟩).isSome = true := by
  constructor
  · exact c4_column_alignment.1 ⟨Cols.flat ["x", "y"], ["r1"], [[1, 2]]⟩ 3 (by decide)
  · exact c4_column_alignment.2.2.2 ⟨Cols.flat ["x", "y"], ["r1"], [[1, 2]]⟩
      (Cols.multi 2 []) [[]] (by decide) (by decide)

/-- Setting an element known to be `w` to `v` trades one `w` for one `v` in
the predicate count. -/
theorem countP_set_phase (p : Phase → Bool) :
    ∀ (l : List Phase) (i : Nat) (v w : Phase), l[i]? = some w →
      (l.set i v).countP p + (if p w then 1 else 0) =
        l.countP p + (if p v then 1 else 0) := by
  intro l
  induction l with
  | nil => intro i v w h; simp at h
  | cons a as ih =>
    intro i v w h
    cases i with
    | zero =>
      simp only [List.getElem?_cons_zero, Option.some.injEq] at h
      subst h
      simp [List.set, List.countP_cons]
      omega
    | succ n =>
      simp only [List.getElem?_cons_succ] at h
      have := ih n v w h
      simp only [List.set, List.countP_cons]
      omega

/-- One scheduler step leaves the configured capacity unchanged. -/
theorem stepTask_cap (s : PoolState) (i : Nat) : (stepTask s i).cap = s.cap := by
  simp only [stepTask]
  split
  · split <;> rfl
  · rfl
  · rfl

/-- One scheduler step preserves the semaphore accounting invariant: the
free permits plus the tasks currently holding the device sum to the
capacity. -/
theorem stepTask_inv (s : PoolState) (i : Nat)
    (h : s.avail + activeCount s = s.cap) :
    (stepTask s i).avail + activeCount (stepTask s i) = s.cap := by
  simp only [stepTask]
  split
  · next hg =>
    split
    · next ha =>
      have hc := countP_set_phase (fun p => p == Phase.holding)
        s.tasks i Phase.holding Phase.searching hg
      simp only [activeCount] at h ⊢
      simp at hc
      omega
    · exact h
  · next hg =>
    have hc := countP_set_phase (fun p => p == Phase.holding)
      s.tasks i Phase.finished Phase.holding hg
    simp only [activeCount] at h ⊢
    simp at hc
    omega
  · exact h

/-- A whole schedule preserves the semaphore accounting invariant. -/
theorem runSched_inv (sched : List Nat) :
    ∀ s : PoolState, s.avail + activeCount s = s.cap →
      (runSched s sched).avail + activeCount (runSched s sched) = s.cap := by
  induction sched with
  | nil => intro s h; exact h
  | cons i sched ih =>
    intro s h
    have hstep := stepTask_inv s i h
    have := ih (stepTask s i) (by rw [stepTask_cap]; exact hstep)
    simpa [runSched, stepTask_cap] using this

/-- C6: under the acquire-then-always-release protocol of the work units,
the number of tasks concurrently holding a device of capacity N never
exceeds N (free permits plus holders always sum to N), once no task holds
the device the free capacity is back to N, and a single work unit restores
the semaphore value it found, whether its body succeeds or raises. -/
theorem c6_device_capacity :
    (∀ (cap n : Nat) (sched : List Nat),
      activeCount (runSched (initPool cap n) sched) ≤ cap ∧
      (runSched (initPool cap n) sched).avail +
        activeCount (runSched (initPool cap n) sched) = cap) ∧
    (∀ (cap n : Nat) (sched : List Nat),
      activeCount (runSched (initPool cap n) sched) = 0 →
      (runSched (initPool cap n) sched).avail = cap) ∧
    (∀ (avail : Nat) (body : Except Unit Unit), 0 < avail →
      (doWorkSem avail body).2 = avail) := by
  have hinit : ∀ cap n : Nat,
      (initPool cap n).avail + activeCount (initPool cap n) = (initPool cap n).cap := by
    intro cap n
    simp [initPool, activeCount, List.countP_replicate]
  have hmain : ∀ (cap n : Nat) (sched : List Nat),
      (runSched (initPool cap n) sched).avail +
        activeCount (runSched (initPool cap n) sched) = cap := by
    intro cap n sched
    exact runSched_inv sched (initPool cap n) (hinit cap n)
  refine ⟨fun cap n sched => ⟨?_, hmain cap n sched⟩, fun cap n sched h => ?_, ?_⟩
  · have := hmain cap n sched
    omega
  · have := hmain cap n sched
    omega
  · intro avail body h
    cases body <;> simp [doWorkSem, h] <;> omega

/-- C6, witness: a capacity-2 pool with three tasks driven through a
concrete schedule, a drained pool returning to full capacity, and a work
unit whose body raises yet restores the semaphore. -/
theorem c6_device_capacity_witness :
    (activeCount (runSched (initPool 2 3) [0, 1, 2, 0, 1]) ≤ 2 ∧
      (runSched (initPool 2 3) [0, 1, 2, 0, 1]).avail +
        activeCount (runSched (initPool 2 3) [0, 1, 2, 0, 1]) = 2) ∧
    (runSched (initPool 2 2) [0, 0, 1, 1]).avail = 2 ∧
    (doWorkSem 1 (Except.error () : Except Unit Unit)).2 = 1 := by
  refine ⟨c6_device_capacity.1 2 3 [0, 1, 2, 0, 1], ?_, ?_⟩
  · exact c6_device_capacity.2.1 2 2 [0, 0, 1, 1] (by decide)
  · exact c6_device_capacity.2.2 1 (Except.error ()) (by decide)

/-- Extracting the yielded runs distributes over trace concatenation. -/
theorem yieldedRuns_append (a b : List (MTEvent ρ)) :
    yieldedRuns (a ++ b) = yieldedRuns a ++ yieldedRuns b := by
  simp [yieldedRuns, List.filterMap_append]

/-- A trace consisting only of yields extracts to exactly those runs. -/
theorem yieldedRuns_map_yield (rs : List ρ) :
    yieldedRuns (rs.map MTEvent.yieldEvt) = rs := by
  induction rs with
  | nil => rfl
  | cons r rs ih => simp [yieldedRuns, List.filterMap_cons] at ih ⊢; exact ih

/-- C7: the adapter yields exactly the concatenation, in label order, of the
runs the inner getter yields for each label, each inner call receiving the
per-label subdirectory as its output root, that label as its target and the
remaining arguments unchanged; and for every label the mkdir of its
subdirectory occurs strictly before the inner invocation in the trace, even
when that call yields nothing. -/
theorem c7_multi_target :
    (∀ (ρ α : Type) (get : String → DirPath → α → List ρ)
      (project_dir : DirPath) (labels : List String) (extra : α),
      yieldedRuns (multi_target get project_dir labels extra) =
        labels.flatMap (fun l => get l (project_dir ++ [l]) extra)) ∧
    (∀ (ρ α : Type) (get : String → DirPath → α → List ρ)
      (project_dir : DirPath) (labels : List String) (extra : α)
      (l : String), l ∈ labels →
      ∃ i j : Nat, i < j ∧
        (multi_target get project_dir labels extra)[i]? =
          some (MTEvent.mkdirEvt (project_dir ++ [l])) ∧
        (multi_target get project_dir labels extra)[j]? =
          some (MTEvent.invokeEvt l (project_dir ++ [l]))) := by
  constructor
  · intro ρ α get project_dir labels extra
    induction labels with
    | nil => rfl
    | cons a as ih =>
      have h1 : multi_target get project_dir (a :: as) extra =
          (MTEvent.mkdirEvt (project_dir ++ [a]) ::
            MTEvent.invokeEvt a (project_dir ++ [a]) ::
            (get a (project_dir ++ [a]) extra).map MTEvent.yieldEvt) ++
            multi_target get project_dir as extra := by
        simp [multi_target]
      rw [h1, yieldedRuns_append, ih, List.flatMap_cons]
      congr 1
      exact yieldedRuns_map_yield (get a (project_dir ++ [a]) extra)
  · intro ρ α get project_dir labels extra l hl
    induction labels with
    | nil => simp at hl
    | cons a as ih =>
      have h1 : multi_target get project_dir (a :: as) extra =
          (MTEvent.mkdirEvt (project_dir ++ [a]) ::
            MTEvent.invokeEvt a (project_dir ++ [a]) ::
            (get a (project_dir ++ [a]) extra).map MTEvent.yieldEvt) ++
            multi_target get project_dir as extra := by
        simp [multi_target]
      rcases List.mem_cons.mp hl with rfl | hmem
      · exact ⟨0, 1, Nat.zero_lt_one, by rw [h1]; simp, by rw [h1]; simp⟩
      · obtain ⟨i, j, hij, hi, hj⟩ := ih hmem
        have hblen : (MTEvent.mkdirEvt (project_dir ++ [a]) ::
            MTEvent.invokeEvt a (project_dir ++ [a]) ::
            (get a (project_dir ++ [a]) extra).map MTEvent.yieldEvt).length =
            (get a (project_dir ++ [a]) extra).length + 2 := by
          simp
        refine ⟨(get a (project_dir ++ [a]) extra).length + 2 + i,
                (get a (project_dir ++ [a]) extra).length + 2 + j,
                by omega, ?_, ?_⟩
        · rw [h1, List.getElem?_append_right (by rw [hblen]; omega), hblen]
          have h2 : (get a (project_dir ++ [a]) extra).length + 2 + i -
              ((get a (project_dir ++ [a]) extra).length + 2) = i := by omega
          rw [h2]
          exact hi
        · rw [h1, List.getElem?_append_right (by rw [hblen]; omega), hblen]
          have h2 : (get a (project_dir ++ [a]) extra).length + 2 + j -
              ((get a (project_dir ++ [a]) extra).length + 2) = j := by omega
          rw [h2]
          exact hj

/-- C7, witness: two labels over an inner getter yielding one run for the
first label and nothing for the second; the yields are the concatenation in
label order and each subdirectory creation strictly precedes its inner
invocation. -/
theorem c7_multi_target_witness :
    yieldedRuns (multi_target
        (fun l d _ => if l = "L1" then [d] else []) [] ["L1", "L2"] 0) =
      [["L1"]] ∧
    (∃ i j : Nat, i < j ∧
      (multi_target (fun l d (_ : Nat) => if l = "L1" then [d] else [])
        ([] : DirPath) ["L1", "L2"] 0)[i]? =
        some (MTEvent.mkdirEvt [("L2" : String)]) ∧
      (multi_target (fun l d (_ : Nat) => if l = "L1" then [d] else [])
        ([] : DirPath) ["L1", "L2"] 0)[j]? =
        some (MTEvent.invokeEvt "L2" [("L2" : String)])) := by
  constructor
  · exact (c7_multi_target.1 DirPath Nat
      (fun l d _ => if l = "L1" then [d] else []) [] ["L1", "L2"] 0).trans (by rfl)
  · simpa using c7_multi_target.2 DirPath Nat
      (fun l d _ => if l = "L1" then [d] else []) [] ["L1", "L2"] 0 "L2"
      (by simp)

end DeepMed
